import Mathlib

/-!
Verification of the proxylet streaming HTTP reverse proxy.

The Python sources (proxylet/__init__.py, proxylet/streams.py,
proxylet/relocate.py) are shallowly embedded below.  Byte strings are
modelled as `List Char` (one `Char` per byte), socket streams as the
remaining byte list of the connection, and the generator-based lazy line
sequences of the original as explicit lists produced by fuel-indexed
structural recursion (the fuel supplied by each wrapper is provably
sufficient, since every `readline` call consumes at least one byte).
-/

namespace Proxylet

/-- Byte strings: one `Char` per byte. -/
abbrev Bytes := List Char

/-- The whitespace set of Python `str.strip` / `str.split` / `str.isspace`. -/
def pySpace (c : Char) : Bool :=
  c = ' ' || c = '\t' || c = '\n' || c = '\r' || c = '\x0b' || c = '\x0c'

/-- Python `s.strip()`: remove leading and trailing whitespace. -/
def strip (s : Bytes) : Bytes :=
  ((s.dropWhile pySpace).reverse.dropWhile pySpace).reverse

/-- Python `s.isspace()`: nonempty and all whitespace. -/
def isspace (s : Bytes) : Bool :=
  !s.isEmpty && s.all pySpace

/-- Python `str.split()` with no separator: split on runs of whitespace,
discarding empty tokens (auxiliary, with accumulator). -/
def splitWSAux : Bytes → Bytes → List Bytes
  | [], acc => if acc.isEmpty then [] else [acc.reverse]
  | c :: rest, acc =>
      if pySpace c then
        if acc.isEmpty then splitWSAux rest [] else acc.reverse :: splitWSAux rest []
      else splitWSAux rest (c :: acc)

/-- Python `str.split()` with no separator argument. -/
def splitWS (s : Bytes) : List Bytes := splitWSAux s []

/-- Case-insensitive equality of header names, as used by the header
machinery of `paste.httpheaders`. -/
def nameEq (a b : Bytes) : Bool :=
  a.map Char.toLower = b.map Char.toLower

/-- Modelled from the spec: the external `paste.httpheaders` lookup
(`hdr.X(headers)` on a header list).  The spec's data model states that
"name lookup is case-insensitive by contract"; absence is reported as
`none`.  The value of the first matching entry is returned. -/
def lookupHeader (name : Bytes) (headers : List (Bytes × Bytes)) : Option Bytes :=
  (headers.find? (fun p => nameEq p.1 name)).map (fun p => p.2)

/-- Modelled from the spec: the external `paste.httpheaders` in-place update
(`hdr.X.update(headers, value)`), with the spec's
"replace-if-present-else-append semantics for single-value headers". -/
def updateHeader (name val : Bytes) : List (Bytes × Bytes) → List (Bytes × Bytes)
  | [] => [(name, val)]
  | (n, v) :: rest =>
      if nameEq n name then (n, val) :: rest
      else (n, v) :: updateHeader name val rest

/-! ## relocate.py: `UrlInfo` and `Relocator` URL rewriting -/

/-- The fields of `relocate.UrlInfo` used by the rewriting algorithm. -/
structure UrlInfo where
  url : Bytes
  path : Bytes
  host : Bytes
deriving DecidableEq, Repr

/-- Whether the remainder after a matched root is empty or begins with
a slash (`path == "" or path[0] == "/"` in `Relocator._rewrite`). -/
def remOk (rem : Bytes) : Bool :=
  rem.isEmpty || rem.head? = some '/'

/-- `Relocator._rewrite(url, inU, outU)` from relocate.py: try full-URL
match, then path match, then exact host match; otherwise return the URL
unchanged. -/
def rewriteUrl (url : Bytes) (inU outU : UrlInfo) : Bytes :=
  if inU.url.isPrefixOf url && remOk (url.drop inU.url.length) then
    outU.url ++ url.drop inU.url.length
  else if inU.path.isPrefixOf url && remOk (url.drop inU.path.length) then
    outU.path ++ url.drop inU.path.length
  else if url = inU.host then
    outU.host
  else url

/-- The rewrite operation as worded by the spec (§4.4): "(1) full-URL-prefix
match: if url starts with fromRoot.url and the remainder is empty or begins
with a slash, replace the matched prefix with toRoot.url; (2) path-prefix
match: same logic using fromRoot.path / toRoot.path; (3) exact host match:
replace url with toRoot.host if url equals fromRoot.host.  If none match,
url is returned unchanged." -/
def rewriteUrlSpec (url : Bytes) (fromRoot toRoot : UrlInfo) : Bytes :=
  if fromRoot.url.isPrefixOf url && remOk (url.drop fromRoot.url.length) then
    toRoot.url ++ url.drop fromRoot.url.length
  else if fromRoot.path.isPrefixOf url && remOk (url.drop fromRoot.path.length) then
    toRoot.path ++ url.drop fromRoot.path.length
  else if url = fromRoot.host then
    toRoot.host
  else url

/-- Modelled from the spec: `UrlInfo.__init__` uses Python's `urlparse`
(external stdlib).  Per the spec's data model, a `UrlInfo` derived from a
root URL string holds the full URL with any trailing slash stripped, the
path component (defaulting to "/" when empty), and the hostname. -/
def mkUrlInfo (u : Bytes) : UrlInfo :=
  let u := if u.getLast? = some '/' then u.dropLast else u
  let afterScheme :=
    if (('/' :: '/' :: []).isPrefixOf (u.dropWhile (fun c => c ≠ ':')).tail) then
      ((u.dropWhile (fun c => c ≠ ':')).tail).drop 2
    else u
  let netloc := afterScheme.takeWhile (fun c => c ≠ '/')
  let path :=
    if afterScheme = u then u else afterScheme.dropWhile (fun c => c ≠ '/')
  let path := if path.isEmpty then ('/' :: []) else path
  let host := netloc.takeWhile (fun c => c ≠ ':')
  ⟨u, path, host⟩

/-- The local root `http://h/a` of the spec's URL-rewrite example. -/
def exLocal : UrlInfo := mkUrlInfo "http://h/a".data

/-- The remote root `http://r/b` of the spec's URL-rewrite example. -/
def exRemote : UrlInfo := mkUrlInfo "http://r/b".data

/-- C2: `Relocator._rewrite` tries, in order, full-URL-prefix match (with the
remainder empty or beginning with a slash), then the same logic on the path
component, then exact host match, and otherwise returns the URL unchanged
(never an error); with local root `http://h/a` and remote root `http://r/b`,
`http://h/a/x` rewrites to `http://r/b/x`, `/a/x` to `/b/x`, the local host
string to the remote host string, and an unrelated URL is unchanged. -/
theorem c2_url_rewrite_precedence :
    (∀ (u : Bytes) (fromRoot toRoot : UrlInfo),
        rewriteUrl u fromRoot toRoot = rewriteUrlSpec u fromRoot toRoot) ∧
    rewriteUrl "http://h/a/x".data exLocal exRemote = "http://r/b/x".data ∧
    rewriteUrl "/a/x".data exLocal exRemote = "/b/x".data ∧
    rewriteUrl "h".data exLocal exRemote = "r".data ∧
    rewriteUrl "http://elsewhere.com/q".data exLocal exRemote
      = "http://elsewhere.com/q".data :=
  ⟨fun _ _ _ => rfl, by decide, by decide, by decide, by decide⟩

/-! ## streams.py: line-oriented stream reads

A connection is the list of bytes not yet consumed.  `readline(size)`
returns the longest prefix up to and including the first newline, capped
at `size` bytes — the semantics shared by `StringStream.readline` and the
socket file wrapper. -/

/-- Number of bytes a `readline(size)` call consumes from `s`. -/
def rlIdx (s : Bytes) (size : Option Nat) : Nat :=
  let idx := min (s.findIdx (fun c => c = '\n') + 1) s.length
  match size with
  | none => idx
  | some sz => min idx sz

/-- One `readline(size)` call: the line read and the remaining stream. -/
def readlineB (s : Bytes) (size : Option Nat) : Bytes × Bytes :=
  (s.take (rlIdx s size), s.drop (rlIdx s size))

theorem rlIdx_le_length (s : Bytes) (sz : Option Nat) : rlIdx s sz ≤ s.length := by
  cases sz with
  | none => exact min_le_right _ _
  | some n => exact le_trans (min_le_left _ _) (min_le_right _ _)

theorem rlIdx_none_pos (s : Bytes) (h : s ≠ []) : 0 < rlIdx s none := by
  have hl : 0 < s.length := List.length_pos.mpr h
  exact lt_min_iff.mpr ⟨Nat.succ_pos _, hl⟩

theorem readlineB_append (s : Bytes) (sz : Option Nat) :
    (readlineB s sz).1 ++ (readlineB s sz).2 = s := by
  simp [readlineB]

theorem readlineB_fst_ne_nil (s : Bytes) (h : s ≠ []) :
    (readlineB s none).1 ≠ [] := by
  simp only [readlineB]
  intro hc
  rcases List.take_eq_nil_iff.mp hc with h0 | h0
  · exact absurd h0 (Nat.pos_iff_ne_zero.mp (rlIdx_none_pos s h))
  · exact h h0

theorem readlineB_snd_length (s : Bytes) (h : s ≠ []) :
    (readlineB s none).2.length < s.length := by
  simp only [readlineB, List.length_drop]
  have := rlIdx_none_pos s h
  have hl : 0 < s.length := List.length_pos.mpr h
  omega

/-- Iterating `readline()` until an empty result: the line sequence
produced by `StreamWrapper.__iter__` (fuel-indexed; a fuel of `s.length`
always suffices since each line consumes at least one byte). -/
def linesOfAux : Nat → Bytes → List Bytes
  | 0, _ => []
  | fuel + 1, s =>
      let r := readlineB s none
      if r.1.isEmpty then [] else r.1 :: linesOfAux fuel r.2

/-- The full line sequence of a stream (`for ln in stream`). -/
def linesOf (s : Bytes) : List Bytes := linesOfAux s.length s

theorem linesOfAux_flatten (fuel : Nat) :
    ∀ s : Bytes, s.length ≤ fuel → (linesOfAux fuel s).flatten = s := by
  induction fuel with
  | zero =>
      intro s hs
      have : s = [] := List.length_eq_zero.mp (Nat.le_zero.mp hs)
      simp [this, linesOfAux]
  | succ n ih =>
      intro s hs
      by_cases h : s = []
      · simp [h, linesOfAux, readlineB]
      · have hne := readlineB_fst_ne_nil s h
        have hlt := readlineB_snd_length s h
        simp only [linesOfAux, List.isEmpty_iff]
        rw [if_neg hne]
        have : ((readlineB s none).2).length ≤ n := by omega
        simp only [List.flatten_cons, ih _ this, readlineB_append]

/-- Reading a stream to end-of-stream re-emits exactly its bytes. -/
theorem linesOf_flatten (s : Bytes) : (linesOf s).flatten = s :=
  linesOfAux_flatten s.length s le_rfl

/-- `ReadNBytes`: read up to `n` bytes via repeated `readline` calls, the
remaining-byte counter decremented by each line's length (fuel-indexed;
fuel `n` suffices as every successful read consumes at least one byte of
the budget).  Returns the chunks read and the remaining stream. -/
def readNAux : Nat → Bytes → Nat → List Bytes × Bytes
  | 0, s, _ => ([], s)
  | fuel + 1, s, n =>
      if n = 0 then ([], s)
      else
        let r := readlineB s (some n)
        if r.1.isEmpty then ([], s)
        else
          let rec' := readNAux fuel r.2 (n - r.1.length)
          (r.1 :: rec'.1, rec'.2)

/-- Iterating a `ReadNBytes(stream, n)` wrapper to exhaustion. -/
def readN (s : Bytes) (n : Nat) : List Bytes × Bytes := readNAux n s n

theorem readN_zero (s : Bytes) : readN s 0 = ([], s) := rfl

theorem rlIdx_some_pos (s : Bytes) (n : Nat) (hs : s ≠ []) (hn : n ≠ 0) :
    0 < rlIdx s (some n) := by
  have hl : 0 < s.length := List.length_pos.mpr hs
  exact lt_min_iff.mpr ⟨lt_min_iff.mpr ⟨Nat.succ_pos _, hl⟩, Nat.pos_of_ne_zero hn⟩

theorem readNAux_spec (fuel : Nat) :
    ∀ (s : Bytes) (n : Nat), n ≤ fuel →
      (readNAux fuel s n).1.flatten = s.take n ∧ (readNAux fuel s n).2 = s.drop n := by
  induction fuel with
  | zero =>
      intro s n hn
      have : n = 0 := Nat.le_zero.mp hn
      simp [this, readNAux]
  | succ f ih =>
      intro s n hn
      by_cases hn0 : n = 0
      · simp [hn0, readNAux]
      · by_cases hs : s = []
        · subst hs
          simp [readNAux, hn0, readlineB]
        · have hpos := rlIdx_some_pos s n hs hn0
          have hidxle : rlIdx s (some n) ≤ s.length := rlIdx_le_length s (some n)
          have hidxn : rlIdx s (some n) ≤ n := by
            simp only [rlIdx]
            exact min_le_right _ _
          have hrl : readlineB s (some n)
              = (s.take (rlIdx s (some n)), s.drop (rlIdx s (some n))) := rfl
          have hne : (s.take (rlIdx s (some n))) ≠ [] := by
            intro hc
            rcases List.take_eq_nil_iff.mp hc with h0 | h0
            · omega
            · exact hs h0
          have hlen : (s.take (rlIdx s (some n))).length = rlIdx s (some n) := by
            simp only [List.length_take]
            omega
          have hrec : n - rlIdx s (some n) ≤ f := by omega
          obtain ⟨ihj, ihd⟩ := ih (s.drop (rlIdx s (some n))) (n - rlIdx s (some n)) hrec
          simp only [readNAux, hn0, if_false, hrl, List.isEmpty_iff, if_neg hne, hlen]
          constructor
          · simp only [List.flatten_cons, ihj]
            conv_rhs => rw [show n = rlIdx s (some n) + (n - rlIdx s (some n)) by omega]
            rw [List.take_add]
          · simp only [ihd, List.drop_drop]
            congr 1
            omega

/-- A `ReadNBytes(stream, n)` wrapper emits exactly the first `n` bytes. -/
theorem readN_flatten (s : Bytes) (n : Nat) : (readN s n).1.flatten = s.take n :=
  (readNAux_spec n s n le_rfl).1

/-- A `ReadNBytes(stream, n)` wrapper leaves exactly the bytes past `n`. -/
theorem readN_snd (s : Bytes) (n : Nat) : (readN s n).2 = s.drop n :=
  (readNAux_spec n s n le_rfl).2

/-! ## streams.py: `HTTPStream` parsing, framing, serialization -/

/-- `HTTPStream.parseHeader`: split the line on ":"; the name is the part
before the first colon, the value is the part after the first colon with
its first character removed, then stripped (with no colon the name is the
whole line and the value is empty). -/
def parseHeader (ln : Bytes) : Bytes × Bytes :=
  (ln.takeWhile (fun c => c ≠ ':'), strip ((ln.dropWhile (fun c => c ≠ ':')).drop 2))

/-- `HTTPStream.parseHeaders`: read lines until a whitespace-only line
(kept as the separator line), parsing each into a (name, value) pair.
`none` models the original dying later with an unset separator line when
the stream ends before a blank line (fuel `s.length` suffices: every
parsed line consumes at least one byte). -/
def parseHeadersAux : Nat → Bytes → Option (List (Bytes × Bytes) × Bytes × Bytes)
  | 0, _ => none
  | fuel + 1, s =>
      let r := readlineB s none
      if r.1.isEmpty then none
      else if isspace r.1 then some ([], r.1, r.2)
      else
        match parseHeadersAux fuel r.2 with
        | none => none
        | some (hs, sep, rest) => some (parseHeader r.1 :: hs, sep, rest)

/-- Parse the header section of a stream: header pairs, separator line,
and the remaining connection. -/
def parseHeadersB (s : Bytes) : Option (List (Bytes × Bytes) × Bytes × Bytes) :=
  parseHeadersAux s.length s

/-- `HTTPStream.parse` up to the body: head line, headers, separator
line, remaining connection. -/
def parseMsg (conn : Bytes) : Option (Bytes × List (Bytes × Bytes) × Bytes × Bytes) :=
  let r := readlineB conn none
  match parseHeadersB r.2 with
  | none => none
  | some (hs, sep, rest) => some (r.1, hs, sep, rest)

/-- `HTTPStream._getContentLength`: the `Content-Length` value, with the
empty string (which `paste` returns for an absent header) mapped to
`None`. -/
def getCLraw (headers : List (Bytes × Bytes)) : Option Bytes :=
  match lookupHeader "Content-Length".data headers with
  | none => none
  | some v => if v.isEmpty then none else some v

/-- Truthiness test `not hdr.TRANSFER_ENCODING(self.headers)` of
`HTTPRequest._getContentLength`: true when the header is absent or empty. -/
def teAbsent (headers : List (Bytes × Bytes)) : Bool :=
  match lookupHeader "Transfer-Encoding".data headers with
  | none => true
  | some v => v.isEmpty

/-- Python `int(...)` on a stripped header value: digits only; `none`
models the `ValueError` the original would raise. -/
def parseNatB (v : Bytes) : Option Nat :=
  if !v.isEmpty && v.all Char.isDigit then
    some (v.foldl (fun a c => a * 10 + (c.toNat - '0'.toNat)) 0)
  else none

/-- The framing decision of `_generateBody` combined with
`_getContentLength` (overridden for requests): `some (some n)` reads
exactly `n` bytes, `some none` reads to end-of-stream, `none` models the
crash on an unparseable `Content-Length`. -/
def bodyFrame (isReq : Bool) (headers : List (Bytes × Bytes)) : Option (Option Nat) :=
  match getCLraw headers with
  | some v =>
      match parseNatB v with
      | some n => some (some n)
      | none => none
  | none =>
      if isReq && teAbsent headers then some (some 0)
      else some none

/-- `HTTPStream._generateBody`: the lazy body chunk sequence and the
connection remainder it leaves behind. -/
def generateBody (frame : Option Nat) (conn : Bytes) : List Bytes × Bytes :=
  match frame with
  | none => (linesOf conn, [])
  | some n => readN conn n

/-- A fully parsed HTTP message: head line, headers, separator line, body
chunks, and the unread connection remainder. -/
structure Msg where
  headline : Bytes
  headers : List (Bytes × Bytes)
  sepline : Bytes
  body : List Bytes
  rest : Bytes
deriving DecidableEq, Repr

/-- Parse one HTTP message (`HTTPStream.parse` plus body framing);
`isReq` selects the request override of `_getContentLength`. -/
def parseHTTP (isReq : Bool) (conn : Bytes) : Option Msg :=
  match parseMsg conn with
  | none => none
  | some (hl, hs, sep, r) =>
      match bodyFrame isReq hs with
      | none => none
      | some frame =>
          let b := generateBody frame r
          some ⟨hl, hs, sep, b.1, b.2⟩

/-- Serialization of one header pair in `HTTPStream._generateLines`:
`name + ": " + value + "\r\n"`. -/
def headerLine (p : Bytes × Bytes) : Bytes :=
  p.1 ++ (':' :: ' ' :: []) ++ p.2 ++ ('\r' :: '\n' :: [])

/-- `HTTPStream._generateLines`: head line, serialized headers, separator
line, body chunks. -/
def streamLines (m : Msg) : List Bytes :=
  m.headline :: m.headers.map headerLine ++ m.sepline :: m.body

/-- C7: a request with no `Content-Length` header and no
`Transfer-Encoding` header is framed with body length 0 — its body chunk
sequence is empty and no byte is consumed from the connection — while a
response with no `Content-Length` header reads the whole remainder of the
connection as its body, until end-of-stream. -/
theorem c7_body_framing :
    (∀ (hs : List (Bytes × Bytes)) (conn : Bytes),
        lookupHeader "Content-Length".data hs = none →
        lookupHeader "Transfer-Encoding".data hs = none →
        bodyFrame true hs = some (some 0) ∧ generateBody (some 0) conn = ([], conn)) ∧
    (∀ (hs : List (Bytes × Bytes)) (conn : Bytes),
        lookupHeader "Content-Length".data hs = none →
        bodyFrame false hs = some none ∧
          generateBody none conn = (linesOf conn, []) ∧ (linesOf conn).flatten = conn) := by
  constructor
  · intro hs conn hcl hte
    refine ⟨?_, rfl⟩
    simp [bodyFrame, getCLraw, teAbsent, hcl, hte]
  · intro hs conn hcl
    refine ⟨?_, rfl, linesOf_flatten conn⟩
    simp [bodyFrame, getCLraw, hcl]

/-- Concrete instance of the body-framing law: a request with only a
`Host` header has an empty body leaving the connection untouched, and a
response with no `Content-Length` reads the connection to its end. -/
theorem c7_body_framing_witness :
    bodyFrame true [("Host".data, "h".data)] = some (some 0) ∧
    generateBody (some 0) "leftover".data = ([], "leftover".data) ∧
    bodyFrame false [("Date".data, "x".data)] = some none ∧
    (linesOf "ab\ncd".data).flatten = "ab\ncd".data := by
  refine ⟨?_, ?_, ?_, ?_⟩
  · exact (c7_body_framing.1 [("Host".data, "h".data)] "leftover".data
      (by decide) (by decide)).1
  · exact (c7_body_framing.1 [("Host".data, "h".data)] "leftover".data
      (by decide) (by decide)).2
  · exact (c7_body_framing.2 [("Date".data, "x".data)] "ab\ncd".data (by decide)).1
  · exact (c7_body_framing.2 [("Date".data, "x".data)] "ab\ncd".data (by decide)).2.2

/-! ## streams.py: `HTTPRewriter`

`HTTPRewriter._generateLines` is modelled as a trace of events: `pull c`
(one chunk obtained from the — possibly hook-wrapped — body source),
`emitLine c` (one line/chunk yielded downstream), and `updateCL n` (the
in-place `CONTENT_LENGTH.update` call).  The trace order is exactly the
order in which the original generator performs these actions. -/

/-- Events performed by `HTTPRewriter._generateLines`. -/
inductive RwEv
  | pull (c : Bytes)
  | emitLine (c : Bytes)
  | updateCL (n : Nat)
deriving DecidableEq, Repr

/-- Whether an event is the `CONTENT_LENGTH.update` call. -/
def RwEv.isUpd : RwEv → Bool
  | .updateCL _ => true
  | _ => false

/-- The chunks emitted downstream by a trace. -/
def emitsOf (tr : List RwEv) : List Bytes :=
  tr.filterMap (fun e => match e with | .emitLine c => some c | _ => none)

/-- Chunk-by-chunk streaming: each body chunk is pulled from the source
and immediately emitted. -/
def pullEmit : List Bytes → List RwEv
  | [] => []
  | c :: r => .pull c :: .emitLine c :: pullEmit r

/-- The `hasCL` test of `HTTPRewriter._generateLines`:
`hdr.CONTENT_LENGTH(headers) not in (None, "", "0")` (an absent header
reads back as the empty string). -/
def hasCLB (hs : List (Bytes × Bytes)) : Bool :=
  match lookupHeader "Content-Length".data hs with
  | none => false
  | some v => !(v.isEmpty || v = ('0' :: []))

/-- Python `str(n)` for the updated `Content-Length` value. -/
def natToBytes (n : Nat) : Bytes := (Nat.repr n).data

/-- The headers after the optional `rwHeaders` hook has run
(`rwHeaders` mutates the header list in place before anything is
emitted). -/
def headersAfterHook (rwH : Option (List (Bytes × Bytes) → List (Bytes × Bytes)))
    (hs : List (Bytes × Bytes)) : List (Bytes × Bytes) :=
  match rwH with
  | some f => f hs
  | none => hs

/-- `HTTPRewriter._generateLines`: run the header hook, emit the head
line, then — if a body hook is installed and the (post-hook)
`Content-Length` is present and non-zero — pull the whole rewritten body,
update `Content-Length` to its total byte length, and only then emit
header lines, separator and the buffered body; otherwise emit headers and
separator and stream the body chunk-by-chunk. -/
def rwTrace (m : Msg) (rwH : Option (List (Bytes × Bytes) → List (Bytes × Bytes)))
    (rwB : Option (List Bytes → List Bytes)) : List RwEv :=
  let hs := headersAfterHook rwH m.headers
  match rwB with
  | none =>
      .emitLine m.headline :: (hs.map headerLine).map .emitLine
        ++ .emitLine m.sepline :: pullEmit m.body
  | some f =>
      let body2 := f m.body
      if hasCLB hs then
        let n := (body2.map List.length).sum
        let hs2 := updateHeader "Content-Length".data (natToBytes n) hs
        .emitLine m.headline :: body2.map .pull
          ++ .updateCL n :: (hs2.map headerLine).map .emitLine
          ++ .emitLine m.sepline :: body2.map .emitLine
      else
        .emitLine m.headline :: (hs.map headerLine).map .emitLine
          ++ .emitLine m.sepline :: pullEmit body2

theorem lookupHeader_updateHeader_self (n v : Bytes) (hs : List (Bytes × Bytes)) :
    lookupHeader n (updateHeader n v hs) = some v := by
  induction hs with
  | nil => simp [updateHeader, lookupHeader, List.find?, nameEq]
  | cons p rest ih =>
      obtain ⟨a, b⟩ := p
      by_cases h : nameEq a n
      · simp [updateHeader, h, lookupHeader, List.find?]
      · simp only [updateHeader, h, if_false, Bool.false_eq_true]
        simpa [lookupHeader, List.find?, h] using ih

/-- C1 (amended): the `Content-Length` test of `HTTPRewriter` is made on
the headers after the header-rewrite hook has run (they coincide with the
original headers when no header hook is installed).  With a body hook
installed: if that post-hook `Content-Length` is present and non-zero,
the whole rewritten body is pulled before anything but the head line is
emitted, `Content-Length` is updated to the exact total byte length of
the rewritten body before any header line is serialized, and the body
then emitted is exactly the measured one; if `Content-Length` is absent,
the rewritten body is streamed chunk-by-chunk with no buffering and no
length correction. -/
theorem c1_content_length_buffering (m : Msg)
    (rwH : Option (List (Bytes × Bytes) → List (Bytes × Bytes)))
    (f : List Bytes → List Bytes) :
    (hasCLB (headersAfterHook rwH m.headers) = true →
      rwTrace m rwH (some f)
        = RwEv.emitLine m.headline :: (f m.body).map RwEv.pull
            ++ RwEv.updateCL ((f m.body).map List.length).sum
              :: ((updateHeader "Content-Length".data
                    (natToBytes ((f m.body).map List.length).sum)
                    (headersAfterHook rwH m.headers)).map headerLine).map RwEv.emitLine
            ++ RwEv.emitLine m.sepline :: (f m.body).map RwEv.emitLine ∧
      lookupHeader "Content-Length".data
          (updateHeader "Content-Length".data
            (natToBytes ((f m.body).map List.length).sum)
            (headersAfterHook rwH m.headers))
        = some (natToBytes ((f m.body).map List.length).sum)) ∧
    (lookupHeader "Content-Length".data (headersAfterHook rwH m.headers) = none →
      rwTrace m rwH (some f)
        = RwEv.emitLine m.headline
            :: ((headersAfterHook rwH m.headers).map headerLine).map RwEv.emitLine
            ++ RwEv.emitLine m.sepline :: pullEmit (f m.body)) := by
  constructor
  · intro h
    refine ⟨?_, lookupHeader_updateHeader_self _ _ _⟩
    simp [rwTrace, h]
  · intro h
    have hcl : hasCLB (headersAfterHook rwH m.headers) = false := by
      simp [hasCLB, h]
    simp [rwTrace, hcl]

/-- A response with `Content-Length: 5` whose body hook replaces the body
by a single 10-byte chunk. -/
def mC1 : Msg :=
  ⟨"HTTP/1.1 200 OK\r\n".data, [("Content-Length".data, "5".data)],
    "\r\n".data, ["hello".data], []⟩

/-- Body hook used by the `c1` witness: replace the body wholesale. -/
def fC1 : List Bytes → List Bytes := fun _ => ["rewritten!".data]

/-- Concrete run of the buffering branch: the whole rewritten body is
pulled first, `Content-Length` becomes 10 (the emitted body's length),
and only then are header lines emitted. -/
theorem c1_content_length_buffering_witness :
    rwTrace mC1 none (some fC1)
      = [RwEv.emitLine "HTTP/1.1 200 OK\r\n".data, RwEv.pull "rewritten!".data,
         RwEv.updateCL 10, RwEv.emitLine "Content-Length: 10\r\n".data,
         RwEv.emitLine "\r\n".data, RwEv.emitLine "rewritten!".data] ∧
    lookupHeader "Content-Length".data
        (updateHeader "Content-Length".data (natToBytes 10) [("Content-Length".data, "5".data)])
      = some "10".data := by
  have h := (c1_content_length_buffering mC1 none fC1).1 (by decide)
  constructor
  · rw [h.1]; decide
  · have h2 := h.2
    rw [show natToBytes ((fC1 mC1.body).map List.length).sum = "10".data from by decide] at h2
    exact h2

/-- A message whose original headers carry `Content-Length: 5` (present
and non-zero) fed to a rewriter whose header hook clears the header list
before the `Content-Length` test runs. -/
def mC1x : Msg :=
  ⟨"HTTP/1.1 200 OK\r\n".data, [("Content-Length".data, "5".data)],
    "\r\n".data, ["he".data, "llo".data], []⟩

/-- The original headers carry a present, non-zero `Content-Length` and a
body hook is installed, yet the produced trace interleaves pulls and
emissions of the body chunks (no buffering) and performs no
`Content-Length` update at all — because the test is made on the
post-header-hook headers, not the original ones. -/
theorem c1_content_length_buffering_counterexample :
    lookupHeader "Content-Length".data mC1x.headers = some "5".data ∧
    rwTrace mC1x (some (fun _ => [])) (some (fun b => b))
      = [RwEv.emitLine "HTTP/1.1 200 OK\r\n".data, RwEv.emitLine "\r\n".data,
         RwEv.pull "he".data, RwEv.emitLine "he".data,
         RwEv.pull "llo".data, RwEv.emitLine "llo".data] ∧
    (rwTrace mC1x (some (fun _ => [])) (some (fun b => b))).all
        (fun e => ! e.isUpd) = true :=
  ⟨by decide, by decide, by decide⟩

/-! ## relocate.py: `Relocator` request-header rewriting -/

/-- A `Relocator`: its two fixed URL roots. -/
structure Relocator where
  localRoot : UrlInfo
  remoteRoot : UrlInfo

/-- `Relocator.rewriteLocal`: rewrite from the local root to the remote
root. -/
def Relocator.rewriteLocal (r : Relocator) (url : Bytes) : Bytes :=
  rewriteUrl url r.localRoot r.remoteRoot

/-- `Relocator.RewriteRequest.rwHeaders`: rewrite a truthy `Destination`
header, unconditionally overwrite `Host` with the remote root's hostname,
and replace the stream's request URI by its local-to-remote rewrite.
Returns the new header list and the new request URI. -/
def rwHeadersRequest (r : Relocator) (hs : List (Bytes × Bytes)) (reqURI : Bytes) :
    List (Bytes × Bytes) × Bytes :=
  let hs1 :=
    match lookupHeader "Destination".data hs with
    | some d =>
        if d.isEmpty then hs
        else updateHeader "Destination".data (r.rewriteLocal d) hs
    | none => hs
  (updateHeader "Host".data r.remoteRoot.host hs1, r.rewriteLocal reqURI)

/-- C10: the request-rewrite hook of a `Relocator` overwrites the `Host`
header with the remote root's hostname unconditionally and replaces the
request URI by its local-to-remote rewrite — also when the URI matches
nothing and is passed through unchanged, as the closed instance with URI
`/unrelated/x` under roots `http://h/a` → `http://r/b` shows. -/
theorem c10_host_unconditionally_rewritten :
    (∀ (r : Relocator) (hs : List (Bytes × Bytes)) (uri : Bytes),
        lookupHeader "Host".data (rwHeadersRequest r hs uri).1
            = some r.remoteRoot.host ∧
        (rwHeadersRequest r hs uri).2 = r.rewriteLocal uri) ∧
    rwHeadersRequest ⟨exLocal, exRemote⟩ [("Host".data, "h".data)] "/unrelated/x".data
      = ([("Host".data, "r".data)], "/unrelated/x".data) :=
  ⟨fun r hs uri => ⟨lookupHeader_updateHeader_self _ _ _, rfl⟩, by decide⟩

/-! ## streams.py: `XMLRewriter`

The expat pull parser is external; its event stream is modelled by
`XmlEv`, and the `XMLRewriter` handlers are embedded as a step function
over the rewriter state (`_content` buffer and pending `_output`). -/

/-- Events delivered by the streaming XML parser. -/
inductive XmlEv
  | decl (version : Bytes) (encoding : Option Bytes)
  | startEl (name : Bytes) (attrs : List (Bytes × Bytes))
  | endEl (name : Bytes)
  | chardata (s : Bytes)

/-- The mutable state of an `XMLRewriter`: the open content buffer (if
any) and the output fragments produced so far. -/
structure XMLState where
  content : Option Bytes
  output : List Bytes
deriving DecidableEq, Repr

/-- `XMLRewriter.CharacterData`: append to the open content buffer, or
emit immediately. -/
def xmlCharData (st : XMLState) (d : Bytes) : XMLState :=
  match st.content with
  | some c => { st with content := some (c ++ d) }
  | none => { st with output := st.output ++ [d] }

/-- Serialization of a start tag with its (possibly rewritten)
attributes, as in `XMLRewriter.StartElement`. -/
def xmlStartTag (name : Bytes) (attrs : List (Bytes × Bytes)) : Bytes :=
  '<' :: (List.intercalate (' ' :: [])
    (name :: attrs.map (fun p => p.1 ++ ('=' :: '"' :: []) ++ p.2 ++ ('"' :: []))))
    ++ ('>' :: [])

/-- `XMLRewriter.StartElement`: open a content buffer when the element is
registered for content rewriting, rewrite registered attribute values,
and emit the start tag. -/
def xmlStartElement (rw : Bytes → Bytes) (rwc : Bytes → Bool) (rwa : Bytes → List Bytes)
    (st : XMLState) (name : Bytes) (attrs : List (Bytes × Bytes)) : XMLState :=
  let st := if rwc name then { st with content := some [] } else st
  let attrs2 := attrs.map (fun p => if (rwa name).contains p.1 then (p.1, rw p.2) else p)
  { st with output := st.output ++ [xmlStartTag name attrs2] }

/-- `XMLRewriter.EndElement`: if a content buffer is open, close it and
pass the accumulated text through `rewrite` once (emitted via
`CharacterData` with the buffer now closed), then emit the end tag. -/
def xmlEndElement (rw : Bytes → Bytes) (st : XMLState) (name : Bytes) : XMLState :=
  let st :=
    match st.content with
    | some c => xmlCharData { st with content := none } (rw c)
    | none => st
  { st with output := st.output ++ [('<' :: '/' :: []) ++ name ++ ('>' :: [])] }

/-- `XMLRewriter.XmlDecl`: re-emit the XML declaration verbatim. -/
def xmlDecl (st : XMLState) (version : Bytes) (encoding : Option Bytes) : XMLState :=
  let pieces :=
    match encoding with
    | some e => ["<?xml version=\"".data, version, "\" encoding=\"".data, e, "\"?>".data]
    | none => ["<?xml version=\"".data, version, "\"?>".data]
  { st with output := st.output ++ pieces }

/-- Dispatch one parser event to the corresponding handler. -/
def xmlStep (rw : Bytes → Bytes) (rwc : Bytes → Bool) (rwa : Bytes → List Bytes)
    (st : XMLState) : XmlEv → XMLState
  | .decl v e => xmlDecl st v e
  | .startEl n a => xmlStartElement rw rwc rwa st n a
  | .endEl n => xmlEndElement rw st n
  | .chardata d => xmlCharData st d

/-- Run the `XMLRewriter` handlers over an event stream. -/
def xmlRun (rw : Bytes → Bytes) (rwc : Bytes → Bool) (rwa : Bytes → List Bytes)
    (evs : List XmlEv) (st : XMLState) : XMLState :=
  evs.foldl (xmlStep rw rwc rwa) st

theorem xmlRun_cons (rw : Bytes → Bytes) (rwc : Bytes → Bool) (rwa : Bytes → List Bytes)
    (e : XmlEv) (evs : List XmlEv) (st : XMLState) :
    xmlRun rw rwc rwa (e :: evs) st = xmlRun rw rwc rwa evs (xmlStep rw rwc rwa st e) := rfl

theorem xmlRun_append (rw : Bytes → Bytes) (rwc : Bytes → Bool) (rwa : Bytes → List Bytes)
    (a b : List XmlEv) (st : XMLState) :
    xmlRun rw rwc rwa (a ++ b) st = xmlRun rw rwc rwa b (xmlRun rw rwc rwa a st) :=
  List.foldl_append _ _ _ _

theorem xmlRun_chardata_buf (rw : Bytes → Bytes) (rwc : Bytes → Bool)
    (rwa : Bytes → List Bytes) (datas : List Bytes) :
    ∀ (c : Bytes) (out : List Bytes),
      xmlRun rw rwc rwa (datas.map XmlEv.chardata) ⟨some c, out⟩
        = ⟨some (c ++ datas.flatten), out⟩ := by
  induction datas with
  | nil => intro c out; simp [xmlRun]
  | cons d rest ih =>
      intro c out
      rw [List.map_cons, xmlRun_cons]
      show xmlRun rw rwc rwa (rest.map XmlEv.chardata) (xmlCharData ⟨some c, out⟩ d) = _
      simp only [xmlCharData, ih, List.flatten_cons, List.append_assoc]

/-- The transform of the spec's XML example: local-to-remote URL
rewriting under roots `http://h/a` → `http://r/b`. -/
def hrefRw : Bytes → Bytes := fun u => rewriteUrl u exLocal exRemote

/-- Content-rewrite registry of the example: exactly `D:href`. -/
def hrefRwc : Bytes → Bool := fun n => n == "D:href".data

/-- Attribute-rewrite registry of the example: empty. -/
def hrefRwa : Bytes → List Bytes := fun _ => []

/-- The event stream of `A<D:href>http://h/a/x</D:href>B`. -/
def exXmlEvents : List XmlEv :=
  [XmlEv.chardata "A".data, XmlEv.startEl "D:href".data [],
   XmlEv.chardata "http://h/a/x".data, XmlEv.endEl "D:href".data,
   XmlEv.chardata "B".data]

/-- C8: for a registered element, character data is accumulated in the
buffer instead of being emitted; at the end tag the rewrite function is
applied exactly once to the accumulated text, the rewritten text is
emitted, then the end tag, and the buffer is closed; character data with
no open buffer is emitted immediately as-is; and the concrete
`D:href` example rewrites `http://h/a/x` to `http://r/b/x` with the
surrounding siblings untouched. -/
theorem c8_xml_content_rewrite :
    (∀ (rw : Bytes → Bytes) (rwc : Bytes → Bool) (rwa : Bytes → List Bytes)
        (name : Bytes) (datas : List Bytes) (st : XMLState),
        rwc name = true → rwa name = [] → st.content = none →
        xmlRun rw rwc rwa
            (XmlEv.startEl name [] :: datas.map XmlEv.chardata ++ [XmlEv.endEl name]) st
          = ⟨none, st.output ++ [xmlStartTag name [], rw datas.flatten,
              ('<' :: '/' :: []) ++ name ++ ('>' :: [])]⟩) ∧
    (∀ (rw : Bytes → Bytes) (rwc : Bytes → Bool) (rwa : Bytes → List Bytes)
        (st : XMLState) (d : Bytes), st.content = none →
        xmlRun rw rwc rwa [XmlEv.chardata d] st = ⟨none, st.output ++ [d]⟩) ∧
    (xmlRun hrefRw hrefRwc hrefRwa exXmlEvents ⟨none, []⟩).output.flatten
      = "A<D:href>http://r/b/x</D:href>B".data := by
  refine ⟨?_, ?_, by decide⟩
  · intro rw rwc rwa name datas st hrwc hrwa hcont
    obtain ⟨co, out⟩ := st
    simp only at hcont
    subst hcont
    have h1 : xmlStep rw rwc rwa ⟨none, out⟩ (XmlEv.startEl name [])
        = ⟨some [], out ++ [xmlStartTag name []]⟩ := by
      simp [xmlStep, xmlStartElement, hrwc]
    rw [show XmlEv.startEl name [] :: datas.map XmlEv.chardata ++ [XmlEv.endEl name]
          = (XmlEv.startEl name [] :: datas.map XmlEv.chardata) ++ [XmlEv.endEl name] from rfl,
        xmlRun_append,
        xmlRun_cons rw rwc rwa (XmlEv.startEl name []) (datas.map XmlEv.chardata),
        h1, xmlRun_chardata_buf]
    simp [xmlRun, xmlStep, xmlEndElement, xmlCharData, List.append_assoc]
  · intro rw rwc rwa st d hcont
    obtain ⟨co, out⟩ := st
    simp only at hcont
    subst hcont
    simp [xmlRun, xmlStep, xmlCharData]

/-- Concrete run of the accumulate-rewrite-emit law on the `D:href`
element (with a sibling fragment already emitted), and of the immediate
emission of character data with no open buffer. -/
theorem c8_xml_content_rewrite_witness :
    xmlRun hrefRw hrefRwc hrefRwa
        (XmlEv.startEl "D:href".data [] :: ["http://h/a/x".data].map XmlEv.chardata
          ++ [XmlEv.endEl "D:href".data]) ⟨none, ["A".data]⟩
      = ⟨none, ["A".data, "<D:href>".data, "http://r/b/x".data, "</D:href>".data]⟩ ∧
    xmlRun hrefRw hrefRwc hrefRwa [XmlEv.chardata "B".data] ⟨none, ["x".data]⟩
      = ⟨none, ["x".data, "B".data]⟩ := by
  constructor
  · have h := c8_xml_content_rewrite.1 hrefRw hrefRwc hrefRwa "D:href".data
      ["http://h/a/x".data] ⟨none, ["A".data]⟩ (by decide) rfl rfl
    rw [h]; decide
  · exact c8_xml_content_rewrite.2.1 hrefRw hrefRwc hrefRwa ⟨none, ["x".data]⟩ "B".data rfl

/-! ## __init__.py: `Dispatcher.processResponses`

The drain loop `while self._responses: resp = self._responses.pop(0);
for ln in resp: self.client.write(ln); if self._closed: self.doclose()`
is modelled both as an event trace (dequeue/write order) and as a
function computing the written lines together with whether `doclose`
ran. -/

/-- Events of one drain of the pending response queue. -/
inductive DrEv
  | dequeue (r : List Bytes)
  | write (ln : Bytes)
deriving DecidableEq, Repr

/-- The event trace of draining a queue of responses (each a list of
lines): `pop(0)` first, then write every line of that response, then
continue with the rest of the queue. -/
def drainTrace : List (List Bytes) → List DrEv
  | [] => []
  | r :: q => DrEv.dequeue r :: (r.map DrEv.write ++ drainTrace q)

/-- The lines written to the client by a trace, in order. -/
def writesOf (tr : List DrEv) : List Bytes :=
  tr.filterMap (fun e => match e with | .write c => some c | _ => none)

/-- The claim's removal discipline, as worded by the spec: a queued entry
is removed only after it has been fully written, i.e. every dequeue event
is preceded by a write event for each of its lines. -/
def removalAfterWrite (q : List (List Bytes)) : Prop :=
  ∀ i r, (drainTrace q).get? i = some (DrEv.dequeue r) →
    ∀ ln ∈ r, ∃ j, j < i ∧ (drainTrace q).get? j = some (DrEv.write ln)

/-- C3 (amended): the drain loop delivers responses strictly in queue
(request) order with no interleaving — the written lines are exactly the
concatenation of the queued responses in order — but each queue entry is
removed (`pop(0)`) when its delivery begins, before its lines are
written, not after. -/
theorem c3_fifo_delivery :
    (∀ q : List (List Bytes), writesOf (drainTrace q) = q.flatten) ∧
    (∀ (r : List Bytes) (q : List (List Bytes)),
        drainTrace (r :: q) = DrEv.dequeue r :: (r.map DrEv.write ++ drainTrace q)) := by
  constructor
  · intro q
    induction q with
    | nil => rfl
    | cons r rest ih =>
        simp only [writesOf] at ih ⊢
        simp [drainTrace, List.filterMap_cons, List.filterMap_append,
          List.filterMap_map, Function.comp, ih]
        induction r with
        | nil => rfl
        | cons c cs ihr => simpa [List.filterMap_cons] using ihr
  · intro r q
    rfl

/-- A single one-line response: the drain trace dequeues it first and
writes its line afterwards, so the spec's "entries are removed only after
being fully written" fails on the code. -/
theorem c3_fifo_delivery_counterexample :
    drainTrace [["x".data]] = [DrEv.dequeue ["x".data], DrEv.write "x".data] ∧
    ¬ removalAfterWrite [["x".data]] := by
  refine ⟨rfl, fun h => ?_⟩
  obtain ⟨j, hj, _⟩ := h 0 ["x".data] rfl "x".data (by simp)
  omega

/-- `processResponses` together with the close logic: drain the queue in
FIFO order and, after writing each response, invoke `doclose` (which
closes the client socket and every pooled backend connection) when
`_closed` is set.  Returns the written lines and whether `doclose` ran. -/
def drainClose (closed : Bool) : List (List Bytes) → List Bytes × Bool
  | [] => ([], false)
  | r :: q =>
      let rest := drainClose closed q
      (r ++ rest.1, closed || rest.2)

/-- C9 (amended): when the session is marked closed, the drain closes all
sockets (client and every pooled backend) provided the pending response
queue is nonempty when the drain runs — `doclose` is invoked only inside
drain iterations. -/
theorem c9_close_on_flush (closed : Bool) (q : List (List Bytes))
    (hc : closed = true) (hq : q ≠ []) :
    (drainClose closed q).2 = true := by
  cases q with
  | nil => exact absurd rfl hq
  | cons r rest => simp [drainClose, hc]

/-- Concrete instance: a closed session with one queued response does
close its sockets during the flush. -/
theorem c9_close_on_flush_witness :
    (drainClose true [["HTTP/1.1 200 OK\r\n".data]]).2 = true :=
  c9_close_on_flush true [["HTTP/1.1 200 OK\r\n".data]] rfl (by simp)

/-- A session marked closed whose pending queue is empty when the final
drain runs: the flush completes (trivially) and no socket is closed,
refuting the claim that every session reaching the Closed state closes
all its sockets after the queue is flushed. -/
theorem c9_close_on_flush_counterexample :
    (drainClose true []).2 = false := rfl

/-! ## Round-trip of the pass-through rewriter (C4 infrastructure) -/

theorem emitsOf_append (a b : List RwEv) : emitsOf (a ++ b) = emitsOf a ++ emitsOf b :=
  List.filterMap_append _ _ _

theorem emitsOf_map_emit (l : List Bytes) : emitsOf (l.map RwEv.emitLine) = l := by
  induction l with
  | nil => rfl
  | cons c cs ih => simpa [emitsOf, List.filterMap_cons] using ih

theorem emitsOf_pullEmit (l : List Bytes) : emitsOf (pullEmit l) = l := by
  induction l with
  | nil => rfl
  | cons c cs ih => simpa [pullEmit, emitsOf, List.filterMap_cons] using ih

theorem emitsOf_cons_emit (c : Bytes) (tr : List RwEv) :
    emitsOf (RwEv.emitLine c :: tr) = c :: emitsOf tr := by
  simp [emitsOf, List.filterMap_cons]

/-- With neither hook installed, the rewriter emits exactly the wrapped
stream's own serialization. -/
theorem rwTrace_noHooks_emits (m : Msg) :
    emitsOf (rwTrace m none none) = streamLines m := by
  show emitsOf (RwEv.emitLine m.headline :: ((m.headers.map headerLine).map RwEv.emitLine
      ++ RwEv.emitLine m.sepline :: pullEmit m.body)) = _
  rw [emitsOf_cons_emit, emitsOf_append, emitsOf_map_emit, emitsOf_cons_emit,
    emitsOf_pullEmit]
  rfl

theorem takeWhile_middle (p : Char → Bool) (l : Bytes) (x : Char) (r : Bytes)
    (hl : ∀ c ∈ l, p c) (hx : ¬ p x) :
    (l ++ x :: r).takeWhile p = l ∧ (l ++ x :: r).dropWhile p = x :: r := by
  induction l with
  | nil => simp [List.takeWhile, List.dropWhile, hx]
  | cons c cs ih =>
      have hc : p c := hl c (List.mem_cons_self _ _)
      have ih' := ih (fun d hd => hl d (List.mem_cons_of_mem _ hd))
      simp [List.takeWhile, List.dropWhile, hc, ih'.1, ih'.2]

theorem dropWhile_eq_self_of_length (p : Char → Bool) (l : Bytes)
    (h : (l.dropWhile p).length = l.length) : l.dropWhile p = l :=
  (List.dropWhile_suffix p).eq_of_length h

theorem strip_self_parts (v : Bytes) (h : strip v = v) :
    v.dropWhile pySpace = v ∧ v.reverse.dropWhile pySpace = v.reverse := by
  have h' : ((v.dropWhile pySpace).reverse.dropWhile pySpace).reverse = v := h
  have hlen1 : (v.dropWhile pySpace).length ≤ v.length :=
    (List.dropWhile_suffix pySpace).length_le
  have hlen2 : ((v.dropWhile pySpace).reverse.dropWhile pySpace).length
      ≤ (v.dropWhile pySpace).length := by
    have := (List.dropWhile_suffix (l := (v.dropWhile pySpace).reverse) pySpace).length_le
    simpa using this
  have hlen3 : ((v.dropWhile pySpace).reverse.dropWhile pySpace).length = v.length := by
    have := congrArg List.length h'
    simpa using this
  have e1 : v.dropWhile pySpace = v :=
    dropWhile_eq_self_of_length pySpace v (by omega)
  have h'' : (v.reverse.dropWhile pySpace).reverse = v := by
    rw [e1] at h'
    exact h'
  have e2 : v.reverse.dropWhile pySpace = v.reverse := by
    have := congrArg List.reverse h''
    simpa using this
  exact ⟨e1, e2⟩

theorem dropWhile_cons_of_neg (p : Char → Bool) (c : Char) (cs : Bytes) (hc : ¬ p c) :
    (c :: cs).dropWhile p = c :: cs := by
  simp [List.dropWhile, hc]

/-- Stripping a canonical (already-stripped) value followed by CRLF
recovers the value. -/
theorem strip_append_crlf (v : Bytes) (h : strip v = v) :
    strip (v ++ ('\r' :: '\n' :: [])) = v := by
  obtain ⟨h1, h2⟩ := strip_self_parts v h
  cases hv : v with
  | nil => rfl
  | cons c cs =>
      rw [hv] at h1 h2
      have hc : ¬ pySpace c := by
        intro hpc
        rw [List.dropWhile_cons, if_pos hpc] at h1
        have hlen := congrArg List.length h1
        have hle := (List.dropWhile_suffix (l := cs) pySpace).length_le
        simp at hlen
        omega
      show strip ((c :: cs) ++ ['\r', '\n']) = c :: cs
      simp only [strip]
      rw [show (c :: cs) ++ ['\r', '\n'] = c :: (cs ++ ['\r', '\n']) from rfl,
        dropWhile_cons_of_neg pySpace c _ hc]
      rw [show (c :: (cs ++ ['\r', '\n'])).reverse
            = '\n' :: '\r' :: (c :: cs).reverse from by simp]
      rw [List.dropWhile_cons, if_pos (show pySpace '\n' = true from by decide),
        List.dropWhile_cons, if_pos (show pySpace '\r' = true from by decide)]
      rw [h2]
      simp

/-- Parsing a canonically serialized header line recovers the pair. -/
theorem parseHeader_canon (nm v : Bytes) (hnm : ':' ∉ nm) (hv : strip v = v) :
    parseHeader (headerLine (nm, v)) = (nm, v) := by
  have hdecomp : headerLine (nm, v) = nm ++ ':' :: (' ' :: (v ++ ('\r' :: '\n' :: []))) := by
    simp [headerLine]
  have hmid := takeWhile_middle (fun c => c ≠ ':') nm ':' (' ' :: (v ++ ('\r' :: '\n' :: [])))
    (fun c hc => decide_eq_true (fun h : c = ':' => hnm (h ▸ hc))) (by decide)
  show (_, _) = (nm, v)
  rw [show (headerLine (nm, v)).takeWhile (fun c => c ≠ ':') = nm from hdecomp ▸ hmid.1]
  rw [show (headerLine (nm, v)).dropWhile (fun c => c ≠ ':')
        = ':' :: (' ' :: (v ++ ('\r' :: '\n' :: []))) from hdecomp ▸ hmid.2]
  rw [show (':' :: (' ' :: (v ++ ('\r' :: '\n' :: []))) : Bytes).drop 2
        = v ++ ('\r' :: '\n' :: []) from rfl]
  rw [strip_append_crlf v hv]

theorem findIdx_newline (l r : Bytes) (hl : '\n' ∉ l) :
    (l ++ '\n' :: r).findIdx (fun c => c = '\n') = l.length := by
  induction l with
  | nil => simp [List.findIdx_cons]
  | cons c cs ih =>
      have hc : ¬ (c = '\n') := fun h => hl (by rw [h]; exact List.mem_cons_self _ _)
      have htl : '\n' ∉ cs := fun h => hl (List.mem_cons_of_mem _ h)
      simp only [List.cons_append, List.findIdx_cons]
      simp [hc, ih htl]

/-- `readline()` on a stream starting with a complete line returns that
line (newline included) and the remainder. -/
theorem readlineB_line (l r : Bytes) (hl : '\n' ∉ l) :
    readlineB (l ++ '\n' :: r) none = (l ++ ['\n'], r) := by
  have hfi := findIdx_newline l r hl
  have hidx : rlIdx (l ++ '\n' :: r) none = l.length + 1 := by
    simp only [rlIdx, hfi, List.length_append, List.length_cons]
    exact Nat.min_eq_left (by omega)
  have hform : l ++ '\n' :: r = (l ++ ['\n']) ++ r := by simp
  have hlen : (l ++ ['\n']).length = l.length + 1 := by simp
  show ((l ++ '\n' :: r).take (rlIdx (l ++ '\n' :: r) none),
        (l ++ '\n' :: r).drop (rlIdx (l ++ '\n' :: r) none)) = (l ++ ['\n'], r)
  rw [hidx, hform, ← hlen, List.take_left, List.drop_left]

/-- Parsing the header section of a canonically serialized message
recovers the header pairs, the CRLF separator and the remainder. -/
theorem parseHeadersAux_canon (hs : List (Bytes × Bytes)) :
    ∀ (fuel : Nat) (rest : Bytes),
      ((hs.map headerLine).flatten ++ '\r' :: '\n' :: rest).length ≤ fuel →
      (∀ p ∈ hs, ':' ∉ p.1 ∧ '\n' ∉ p.1 ∧ strip p.2 = p.2 ∧ '\n' ∉ p.2) →
      parseHeadersAux fuel ((hs.map headerLine).flatten ++ '\r' :: '\n' :: rest)
        = some (hs, '\r' :: '\n' :: [], rest) := by
  induction hs with
  | nil =>
      intro fuel rest hfuel hcanon
      cases fuel with
      | zero => simp at hfuel
      | succ f =>
          have hrl : readlineB ('\r' :: '\n' :: rest) none = (['\r', '\n'], rest) :=
            readlineB_line ['\r'] rest (by decide)
          simp only [List.map_nil, List.flatten_nil, List.nil_append]
          simp [parseHeadersAux, hrl, isspace, pySpace]
  | cons p ps ih =>
      intro fuel rest hfuel hcanon
      obtain ⟨nm, v⟩ := p
      obtain ⟨hnm, hnmn, hv, hvn⟩ := hcanon (nm, v) (List.mem_cons_self _ _)
      have hdecomp : ((((nm, v) :: ps).map headerLine).flatten ++ '\r' :: '\n' :: rest)
          = (nm ++ ':' :: ' ' :: (v ++ ['\r']))
              ++ '\n' :: ((ps.map headerLine).flatten ++ '\r' :: '\n' :: rest) := by
        simp [headerLine]
      have hnl : '\n' ∉ (nm ++ ':' :: ' ' :: (v ++ ['\r'])) := by
        intro hmem
        simp only [List.mem_append, List.mem_cons, List.mem_singleton] at hmem
        rcases hmem with h | h | h | h | h
        · exact hnmn h
        · exact absurd h (by decide)
        · exact absurd h (by decide)
        · exact hvn h
        · exact absurd h (by decide)
      have hrl := readlineB_line (nm ++ ':' :: ' ' :: (v ++ ['\r']))
        ((ps.map headerLine).flatten ++ '\r' :: '\n' :: rest) hnl
      have hlineEq : (nm ++ ':' :: ' ' :: (v ++ ['\r'])) ++ ['\n'] = headerLine (nm, v) := by
        simp [headerLine]
      have hemp : ((nm ++ ':' :: ' ' :: (v ++ ['\r'])) ++ ['\n']).isEmpty = false := by
        simp
      have hnsp : isspace ((nm ++ ':' :: ' ' :: (v ++ ['\r'])) ++ ['\n']) = false := by
        have hps : pySpace ':' = false := by decide
        simp [isspace, List.all_append, hps]
      cases fuel with
      | zero =>
          rw [hdecomp] at hfuel
          simp [List.length_append] at hfuel
      | succ f =>
          rw [hdecomp]
          have hfuel2 : ((ps.map headerLine).flatten ++ '\r' :: '\n' :: rest).length ≤ f := by
            rw [hdecomp] at hfuel
            simp only [List.length_append, List.length_cons] at hfuel ⊢
            omega
          simp only [parseHeadersAux, hrl, hemp, hnsp, Bool.false_eq_true, if_false,
            ih f rest hfuel2 (fun q hq => hcanon q (List.mem_cons_of_mem _ hq))]
          rw [hlineEq, parseHeader_canon nm v hnm hv]

/-- C4 (amended): with no header-rewrite and no body-rewrite hook, the
rewrite wrapper re-emits the message byte-for-byte provided every header
line of the original is in canonical form `name: value\r\n` — the name
colon-free, the value already stripped — with a CRLF blank line; the
emitted bytes followed by the unread connection remainder reconstitute
the connection exactly (the body, framed by a digit-valued
`Content-Length` or by connection close, always round-trips). -/
theorem c4_passthrough_roundtrip
    (hb : Bytes) (hs : List (Bytes × Bytes)) (rest : Bytes)
    (hhb : '\n' ∉ hb)
    (hcanon : ∀ p ∈ hs, ':' ∉ p.1 ∧ '\n' ∉ p.1 ∧ strip p.2 = p.2 ∧ '\n' ∉ p.2)
    (hcl : ∀ p ∈ hs, nameEq p.1 "Content-Length".data = true →
        p.2.isEmpty = false ∧ p.2.all Char.isDigit = true) :
    ∃ m : Msg,
      parseHTTP false (hb ++ '\n' :: ((hs.map headerLine).flatten ++ '\r' :: '\n' :: rest))
        = some m ∧
      (emitsOf (rwTrace m none none)).flatten ++ m.rest
        = hb ++ '\n' :: ((hs.map headerLine).flatten ++ '\r' :: '\n' :: rest) := by
  have hK : parseHeadersB ((hs.map headerLine).flatten ++ '\r' :: '\n' :: rest)
      = some (hs, '\r' :: '\n' :: [], rest) :=
    parseHeadersAux_canon hs _ rest le_rfl hcanon
  have hrl := readlineB_line hb ((hs.map headerLine).flatten ++ '\r' :: '\n' :: rest) hhb
  have hpm : parseMsg (hb ++ '\n' :: ((hs.map headerLine).flatten ++ '\r' :: '\n' :: rest))
      = some (hb ++ ['\n'], hs, '\r' :: '\n' :: [], rest) := by
    simp only [parseMsg, hrl, hK]
  cases hlk : lookupHeader "Content-Length".data hs with
  | none =>
      have hbf : bodyFrame false hs = some none := by
        simp [bodyFrame, getCLraw, hlk]
      refine ⟨⟨hb ++ ['\n'], hs, '\r' :: '\n' :: [], linesOf rest, []⟩, ?_, ?_⟩
      · simp only [parseHTTP, hpm, hbf, generateBody]
      · rw [rwTrace_noHooks_emits]
        simp only [streamLines, List.flatten_cons, List.flatten_append]
        simp [linesOf_flatten, List.append_assoc]
  | some v =>
      have hfind : ∃ q, hs.find? (fun p => nameEq p.1 "Content-Length".data) = some q
          ∧ q.2 = v := by
        simpa [lookupHeader] using hlk
      obtain ⟨q, hfq, hqv⟩ := hfind
      have hqmem := List.mem_of_find?_eq_some hfq
      have hqp : nameEq q.1 "Content-Length".data = true := by
        have h := List.find?_some hfq
        exact h
      obtain ⟨hvne, hvdig⟩ := hcl q hqmem hqp
      rw [hqv] at hvne hvdig
      have hgcl : getCLraw hs = some v := by simp [getCLraw, hlk, hvne]
      have hpn : parseNatB v
          = some (v.foldl (fun a c => a * 10 + (c.toNat - '0'.toNat)) 0) := by
        simp [parseNatB, hvne, hvdig]
      have hbf : bodyFrame false hs
          = some (some (v.foldl (fun a c => a * 10 + (c.toNat - '0'.toNat)) 0)) := by
        simp [bodyFrame, hgcl, hpn]
      refine ⟨⟨hb ++ ['\n'], hs, '\r' :: '\n' :: [],
        (readN rest (v.foldl (fun a c => a * 10 + (c.toNat - '0'.toNat)) 0)).1,
        (readN rest (v.foldl (fun a c => a * 10 + (c.toNat - '0'.toNat)) 0)).2⟩, ?_, ?_⟩
      · simp only [parseHTTP, hpm, hbf, generateBody]
      · rw [rwTrace_noHooks_emits]
        simp only [streamLines, List.flatten_cons, List.flatten_append, readN_flatten,
          readN_snd]
        simp [List.append_assoc, List.take_append_drop]

/-- A response whose header line `H:v\r\n` lacks the space after the
colon: the pass-through wrapper re-emits it as `H: \r\n` (the value
parser drops the byte after the colon and strips), so the emitted bytes
differ from the original message even with no hooks installed. -/
theorem c4_passthrough_counterexample :
    parseHTTP false "HTTP/1.1 200 OK\r\nH:v\r\n\r\n".data
      = some ⟨"HTTP/1.1 200 OK\r\n".data, [("H".data, [])], "\r\n".data, [], []⟩ ∧
    (emitsOf (rwTrace ⟨"HTTP/1.1 200 OK\r\n".data, [("H".data, [])],
        "\r\n".data, [], []⟩ none none)).flatten
      = "HTTP/1.1 200 OK\r\nH: \r\n\r\n".data ∧
    "HTTP/1.1 200 OK\r\nH: \r\n\r\n".data ≠ "HTTP/1.1 200 OK\r\nH:v\r\n\r\n".data :=
  ⟨by decide, by decide, by decide⟩

/-- Concrete canonical-form round trip: a response with headers
`Content-Type: text/xml` and `Content-Length: 4` followed by a 4-byte
body and two bytes of the next message round-trips byte-identically. -/
theorem c4_passthrough_roundtrip_witness :
    ∃ m : Msg,
      parseHTTP false ("HTTP/1.1 200 OK\r".data ++ '\n' ::
          (([("Content-Type".data, "text/xml".data),
             ("Content-Length".data, "4".data)].map headerLine).flatten
            ++ '\r' :: '\n' :: "bodyXY".data)) = some m ∧
      (emitsOf (rwTrace m none none)).flatten ++ m.rest
        = "HTTP/1.1 200 OK\r".data ++ '\n' ::
            (([("Content-Type".data, "text/xml".data),
               ("Content-Length".data, "4".data)].map headerLine).flatten
              ++ '\r' :: '\n' :: "bodyXY".data) :=
  c4_passthrough_roundtrip "HTTP/1.1 200 OK\r".data
    [("Content-Type".data, "text/xml".data), ("Content-Length".data, "4".data)]
    "bodyXY".data (by decide) (by decide) (by decide)

/-! ## streams.py `HTTPRequest` and __init__.py `Dispatcher.dispatch` -/

/-- A parsed `HTTPRequest`: the validity flag (`parseReqLine` requires
exactly three whitespace-separated tokens, and a `Host` header must be
present), the request-line tokens, the headers, the lines produced by
iterating the request (empty for an invalid request, whose `_lines` is a
`Nullify` wrapper that drains the stream and yields nothing), and the
connection remainder once the request has been fully iterated (empty for
an invalid request: the `Nullify` wrapper consumes the rest). -/
structure Request where
  valid : Bool
  headline : Bytes
  reqMethod : Bytes
  reqURI : Bytes
  reqProtocol : Bytes
  headers : List (Bytes × Bytes)
  lines : List Bytes
  connAfter : Bytes
deriving DecidableEq, Repr

/-- `HTTPRequest.__init__`: parse the message, split the request line,
check for `Host`.  A valid request re-serializes with a rebuilt request
line (tokens joined by single spaces); an invalid one yields no lines and
drains the stream. -/
def parseRequest (conn : Bytes) : Option Request :=
  match parseMsg conn with
  | none => none
  | some (hl, hs, sep, r) =>
      match bodyFrame true hs with
      | none => none
      | some frame =>
          let b := generateBody frame r
          let bits := splitWS hl
          let valid := bits.length == 3 && (lookupHeader "Host".data hs).isSome
          if valid then
            some ⟨true, hl, bits.getD 0 [], bits.getD 1 [], bits.getD 2 [], hs,
              (bits.getD 0 [] ++ ' ' :: bits.getD 1 [] ++ ' ' :: bits.getD 2 []
                ++ ('\r' :: '\n' :: [])) :: hs.map headerLine ++ sep :: b.1,
              b.2⟩
          else
            some ⟨false, hl, bits.getD 0 [], bits.getD 1 [], bits.getD 2 [], hs, [], []⟩

/-- The literal 400 response of `Dispatcher.dispatch`. -/
def lit400 : Bytes := "HTTP/1.1 400 Bad Request\r\nContent-Length: 0\r\n\r\n".data

/-- The fixed 404 body (`content = "Not Found"`). -/
def notFoundContent : Bytes := "Not Found".data

/-- The 404 response of `Dispatcher.dispatch`, built with
`Content-Length: %d % len(content)` as in the source. -/
def lit404 : Bytes :=
  "HTTP/1.1 404 Not Found\r\nContent-Length: ".data ++ natToBytes notFoundContent.length
    ++ "\r\n\r\n".data ++ notFoundContent

/-- The observable state of one `Dispatcher` session. -/
structure DState where
  clientOut : List Bytes
  closed : Bool
  socketsClosed : Bool
  backendOut : List ((Bytes × Nat) × Bytes)
  pool : List ((Bytes × Nat) × Bytes)
deriving DecidableEq, Repr

/-- Queue one response and run `processResponses`: its lines are written
to the client in order, and `doclose` runs if the session is marked
closed (see `drainClose`). -/
def drainResp (st : DState) (resp : List Bytes) : DState :=
  let d := drainClose st.closed [resp]
  { st with clientOut := st.clientOut ++ d.1,
            socketsClosed := st.socketsClosed || d.2 }

/-- `Dispatcher._getServer`: reuse the pooled backend connection for this
destination or connect a fresh one (whose unread response bytes are given
by `backends`). -/
def getServer (backends : Bytes × Nat → Bytes) (pool : List ((Bytes × Nat) × Bytes))
    (dest : Bytes × Nat) : List ((Bytes × Nat) × Bytes) × Bytes :=
  match pool.lookup dest with
  | some s => (pool, s)
  | none => (pool ++ [(dest, backends dest)], backends dest)

/-- Record the new unread-byte position of a pooled backend stream. -/
def updatePool : List ((Bytes × Nat) × Bytes) → Bytes × Nat → Bytes →
    List ((Bytes × Nat) × Bytes)
  | [], dest, rest => [(dest, rest)]
  | e :: es, dest, rest =>
      if e.1 == dest then (dest, rest) :: es else e :: updatePool es dest rest

/-- Result of one iteration of the dispatch loop: stop (`break` or error)
or continue with the remaining client connection. -/
inductive StepOut
  | halt (st : DState)
  | next (st : DState) (conn : Bytes)
deriving DecidableEq, Repr

/-- One iteration of `Dispatcher.dispatch`: read a request (a read error
halts the session); an invalid request marks the session closed, queues
the literal 400 and halts; an unmapped request queues the literal 404 and
sends the request into a discard sink (its body is consumed from the
client connection, nothing reaches any backend); a mapped request is
forwarded to the pooled backend and the backend's response (both possibly
wrapped by the rewriter) is queued.  Queued responses are drained to the
client in FIFO order after the iteration's writes. -/
def dispatchOne
    (mapper : Request → Option (Bytes × Nat ×
      Option ((List Bytes × List Bytes) → List Bytes × List Bytes)))
    (backends : Bytes × Nat → Bytes) (conn : Bytes) (st : DState) : StepOut :=
  match parseRequest conn with
  | none => .halt st
  | some req =>
      if req.valid then
        match mapper req with
        | none => .next (drainResp st (linesOf lit404)) req.connAfter
        | some (host, port, rw) =>
            let g := getServer backends st.pool (host, port)
            match parseHTTP false g.2 with
            | none => .halt st
            | some resp =>
                let wrapped :=
                  match rw with
                  | none => (req.lines, streamLines resp)
                  | some f => f (req.lines, streamLines resp)
                let newPool := updatePool g.1 (host, port) resp.rest
                let newBO := st.backendOut ++ wrapped.1.map (fun ln => ((host, port), ln))
                let st := { st with pool := newPool, backendOut := newBO }
                .next (drainResp st wrapped.2) req.connAfter
      else
        .halt (drainResp { st with closed := true } (linesOf lit400))

/-- The `while not self._closed` dispatch loop (fuel = maximum number of
requests to process). -/
def dispatchLoop
    (mapper : Request → Option (Bytes × Nat ×
      Option ((List Bytes × List Bytes) → List Bytes × List Bytes)))
    (backends : Bytes × Nat → Bytes) : Nat → Bytes → DState → DState
  | 0, _, st => st
  | fuel + 1, conn, st =>
      if st.closed then st
      else
        match dispatchOne mapper backends conn st with
        | .halt st2 => st2
        | .next st2 conn2 => dispatchLoop mapper backends fuel conn2 st2

/-- C5: a request is marked invalid (valid = false, no exception) exactly
when its start line does not split into three whitespace-separated tokens
or no `Host` header is present; an invalid request yields no lines (so
nothing of it is ever forwarded) and its wrapper drains the connection
remainder; on an invalid request the Dispatcher writes exactly the
literal `HTTP/1.1 400 Bad Request\r\nContent-Length: 0\r\n\r\n` to the
client, marks the session closed (closing its sockets during the flush),
touches no backend, and halts the read loop. -/
theorem c5_invalid_request :
    (∀ (conn : Bytes) (req : Request), parseRequest conn = some req →
        (req.valid = false ↔
          (splitWS req.headline).length ≠ 3 ∨
            lookupHeader "Host".data req.headers = none)) ∧
    (∀ (conn : Bytes) (req : Request), parseRequest conn = some req →
        req.valid = false → req.lines = [] ∧ req.connAfter = []) ∧
    (∀ (mapper : Request → Option (Bytes × Nat ×
          Option ((List Bytes × List Bytes) → List Bytes × List Bytes)))
        (backends : Bytes × Nat → Bytes) (conn : Bytes) (st : DState) (req : Request),
        parseRequest conn = some req → req.valid = false →
        dispatchOne mapper backends conn st
          = StepOut.halt ⟨st.clientOut ++ linesOf lit400, true, true,
              st.backendOut, st.pool⟩) ∧
    (linesOf lit400).flatten = lit400 := by
  refine ⟨?_, ?_, ?_, linesOf_flatten _⟩
  · intro conn req h
    unfold parseRequest at h
    split at h
    · exact absurd h (by simp)
    · split at h
      · exact absurd h (by simp)
      · simp only [] at h
        split at h
        · rename_i hv
          have hreq := (Option.some.inj h).symm
          subst hreq
          simp only [Bool.and_eq_true, beq_iff_eq, Option.isSome_iff_ne_none] at hv
          refine ⟨fun hfalse => absurd hfalse (by simp), fun hr => ?_⟩
          exact (hr.elim (fun h1 => h1 hv.1) (fun h1 => hv.2 h1)).elim
        · rename_i hv
          have hreq := (Option.some.inj h).symm
          subst hreq
          simp only [Bool.and_eq_true, beq_iff_eq, Option.isSome_iff_ne_none,
            not_and_or, not_not] at hv
          exact ⟨fun _ => hv, fun _ => rfl⟩
  · intro conn req h hval
    unfold parseRequest at h
    split at h
    · exact absurd h (by simp)
    · split at h
      · exact absurd h (by simp)
      · simp only [] at h
        split at h
        · have hreq := (Option.some.inj h).symm
          subst hreq
          simp at hval
        · have hreq := (Option.some.inj h).symm
          subst hreq
          exact ⟨rfl, rfl⟩
  · intro mapper backends conn st req h hval
    unfold dispatchOne
    rw [h]
    simp only [hval, Bool.false_eq_true, if_false]
    simp [drainResp, drainClose]

/-- The parse of the spec's invalid-request bytes `GET /\r\n\r\n`: two
start-line tokens, no `Host` header. -/
def req400ex : Request :=
  ⟨false, "GET /\r\n".data, "GET".data, "/".data, [], [], [], []⟩

/-- Concrete invalid request `GET /\r\n\r\n`: marked invalid, nothing
forwarded, exactly the literal 400 written, session closed and halted. -/
theorem c5_invalid_request_witness :
    req400ex.valid = false ∧
    req400ex.lines = [] ∧ req400ex.connAfter = [] ∧
    dispatchOne (fun _ => none) (fun _ => []) "GET /\r\n\r\n".data
        ⟨[], false, false, [], []⟩
      = StepOut.halt ⟨linesOf lit400, true, true, [], []⟩ ∧
    (linesOf lit400).flatten = lit400 := by
  have hp : parseRequest "GET /\r\n\r\n".data = some req400ex := by decide
  have h1 := (c5_invalid_request.1 _ _ hp).mpr (Or.inl (by decide))
  have h2 := c5_invalid_request.2.1 _ _ hp h1
  have h3 := c5_invalid_request.2.2.1 (fun _ => none) (fun _ => [])
    "GET /\r\n\r\n".data ⟨[], false, false, [], []⟩ req400ex hp h1
  exact ⟨h1, h2.1, h2.2, by simpa using h3, c5_invalid_request.2.2.2⟩

/-- C6: a valid request the mapper does not map is answered by queueing
exactly the literal `HTTP/1.1 404 Not Found\r\nContent-Length: 9\r\n\r\n`
`Not Found`; the request is iterated into a discard sink (its body is
consumed from the client connection — the loop resumes after it — but no
backend receives anything and the pool is untouched); the session is not
closed and the loop goes on to read the next request. -/
theorem c6_unmapped_404
    (mapper : Request → Option (Bytes × Nat ×
      Option ((List Bytes × List Bytes) → List Bytes × List Bytes)))
    (backends : Bytes × Nat → Bytes) (conn : Bytes) (st : DState) (req : Request)
    (hp : parseRequest conn = some req) (hval : req.valid = true)
    (hmap : mapper req = none) (hcl : st.closed = false) :
    dispatchOne mapper backends conn st
      = StepOut.next ⟨st.clientOut ++ linesOf lit404, false, st.socketsClosed,
          st.backendOut, st.pool⟩ req.connAfter ∧
    lit404 = "HTTP/1.1 404 Not Found\r\nContent-Length: 9\r\n\r\nNot Found".data ∧
    (linesOf lit404).flatten = lit404 ∧
    ∀ fuel, dispatchLoop mapper backends (fuel + 1) conn st
      = dispatchLoop mapper backends fuel req.connAfter
          ⟨st.clientOut ++ linesOf lit404, false, st.socketsClosed,
            st.backendOut, st.pool⟩ := by
  have hstep : dispatchOne mapper backends conn st
      = StepOut.next ⟨st.clientOut ++ linesOf lit404, false, st.socketsClosed,
          st.backendOut, st.pool⟩ req.connAfter := by
    unfold dispatchOne
    rw [hp]
    simp [hval, hmap, drainResp, drainClose, hcl]
  refine ⟨hstep, by decide, linesOf_flatten _, fun fuel => ?_⟩
  simp only [dispatchLoop, hcl, Bool.false_eq_true, if_false, hstep]

/-- Two back-to-back unmapped requests, the first with a 2-byte body. -/
def connC6 : Bytes :=
  "GET /x HTTP/1.1\r\nHost: h\r\nContent-Length: 2\r\n\r\nAB".data ++
  "GET /y HTTP/1.1\r\nHost: h\r\n\r\n".data

/-- The parse of the first request on `connC6`. -/
def reqC6a : Request :=
  ⟨true, "GET /x HTTP/1.1\r\n".data, "GET".data, "/x".data, "HTTP/1.1".data,
    [("Host".data, "h".data), ("Content-Length".data, "2".data)],
    ["GET /x HTTP/1.1\r\n".data, "Host: h\r\n".data, "Content-Length: 2\r\n".data,
      "\r\n".data, "AB".data],
    "GET /y HTTP/1.1\r\nHost: h\r\n\r\n".data⟩

/-- The parse of the second request on `connC6`. -/
def reqC6b : Request :=
  ⟨true, "GET /y HTTP/1.1\r\n".data, "GET".data, "/y".data, "HTTP/1.1".data,
    [("Host".data, "h".data)],
    ["GET /y HTTP/1.1\r\n".data, "Host: h\r\n".data, "\r\n".data], []⟩

/-- Concrete session with two unmapped requests: each gets the literal
404, the first request's body is drained from the connection (the second
request parses right after it), no backend is touched, and the session
stays open across both. -/
theorem c6_unmapped_404_witness :
    dispatchOne (fun _ => none) (fun _ => []) connC6 ⟨[], false, false, [], []⟩
      = StepOut.next ⟨linesOf lit404, false, false, [], []⟩
          "GET /y HTTP/1.1\r\nHost: h\r\n\r\n".data ∧
    dispatchOne (fun _ => none) (fun _ => []) "GET /y HTTP/1.1\r\nHost: h\r\n\r\n".data
        ⟨linesOf lit404, false, false, [], []⟩
      = StepOut.next ⟨linesOf lit404 ++ linesOf lit404, false, false, [], []⟩ [] := by
  constructor
  · have h := (c6_unmapped_404 (fun _ => none) (fun _ => []) connC6
      ⟨[], false, false, [], []⟩ reqC6a (by decide) rfl rfl rfl).1
    simpa [reqC6a] using h
  · have h := (c6_unmapped_404 (fun _ => none) (fun _ => [])
      "GET /y HTTP/1.1\r\nHost: h\r\n\r\n".data
      ⟨linesOf lit404, false, false, [], []⟩ reqC6b (by decide) rfl rfl rfl).1
    simpa [reqC6b] using h

end Proxylet
